import Mathlib

/-!
Verification development for the shifter image gateway.

The embedding below models `src/imagegw/src/imagemngr.py` (the `imagemngr`
class: `lookup`, `isready`, `new_image_record`, `pull`, `update_mongo_state`,
`get_state`, `update_states`, `expire`) and `create_response` from
`src/imagegw/shifter_imagegw/imagegwapi.py`.

Modelling decisions:
- Mongo documents (Python dicts) are association lists `Dict` over a small
  value type `Val`; `dget`/`dset` give the usual dictionary semantics
  (first binding wins on reads; `dset` replaces the existing binding).
- The mongo `images` collection is a `List Dict`; `insert` appends a document
  carrying a fresh `_id` drawn from a counter; `update({'_id':id},{'$set':
  {'status':s}})` updates the first matching document (mongo's default).
- Celery is the task dispatcher.  A handle is either an `AsyncResult`
  (`Handle.async`, identified by a counter) or, in the fake-celery path of
  `pull`, a bson ObjectId (`Handle.objId`).  The dispatcher's view of an
  async handle's state (`req.state` in `update_states`) is an oracle
  `report : Nat → String` supplied at each refresh.  The gateway only ever
  calls `pull` with the default `delay=True`, which is the path modelled;
  the `delay=False` path invokes the external worker synchronously and is
  outside the orchestrator core.
- `self.tasks` and `self.task_image_id` are updated in lockstep by `pull`
  (append handle, map handle to image id); they are merged into one list
  `tasks : List (Handle × Option Val)`.
- `apply_async` submissions are logged in `subs` (job, queue name) so that
  "number of dispatcher submissions" is observable; a failing submission
  (celery raising) is modelled by the `dispatchOk` flag: the Python
  exception propagates out of `pull`, leaving the state as of the raise.
- Authentication (`self.auth.authenticate`) is an external collaborator and
  always succeeds here; python exceptions on absent keys are modelled with
  `Option` results.  Requests arriving from the API layer always carry the
  `system`/`itype`/`tag` fields.
-/

namespace Shifter

/-- Values stored in documents: strings, string lists (ACLs), and bson
ObjectIds (modelled as naturals drawn from a counter). -/
inductive Val where
  | str : String → Val
  | arr : List String → Val
  | oid : Nat → Val
deriving DecidableEq, Repr

/-- A Python dict / mongo document: an association list. -/
abbrev Dict := List (String × Val)

/-- Dictionary read: first binding wins (Python dicts have unique keys). -/
def dget : Dict → String → Option Val
  | [], _ => none
  | (k', v) :: d, k => if k' = k then some v else dget d k

/-- Dictionary write: replace the existing binding, else append. -/
def dset : Dict → String → Val → Dict
  | [], k, v => [(k, v)]
  | (k', v') :: d, k, v => if k' = k then (k, v) :: d else (k', v') :: dset d k v

/-- A celery dispatcher handle: a real `AsyncResult` (numbered by the
submission counter) or, in the fake-celery path, a bson ObjectId. -/
inductive Handle where
  | async : Nat → Handle
  | objId : Nat → Handle
deriving DecidableEq, Repr

/-- The dispatcher's current view of async task states: task number to
celery state string (`PENDING`, `SUCCESS`, `FAILURE`, ...). -/
abbrev Report := Nat → String

/-- The state of an `imagemngr` instance together with its mongo collection:
`store` is the `images` collection, `nextId` feeds fresh ObjectIds,
`tasks` merges `self.tasks` with `self.task_image_id`, `subs` logs
`apply_async` submissions as (job, queue), `nextTask` numbers async handles. -/
structure Mgr where
  store : List Dict
  nextId : Nat
  tasks : List (Handle × Option Val)
  subs : List (Dict × Option Val)
  nextTask : Nat
deriving DecidableEq, Repr

/-- `update_mongo_state`'s translation of a dispatcher state into the
persisted status: `SUCCESS` becomes `READY`, everything else is written
unchanged. -/
def statusWrite (state : String) : String :=
  if state = "SUCCESS" then "READY" else state

/-- `self.images.update({'_id':id},{'$set':{'status':st}})`: set the status
of the first document whose `_id` equals `id`. -/
def mongoUpdateStatus : List Dict → Option Val → String → List Dict
  | [], _, _ => []
  | r :: rs, id, st =>
    if dget r "_id" = id then dset r "status" (Val.str st) :: rs
    else r :: mongoUpdateStatus rs id st

/-- `imagemngr.update_mongo_state`: translate `SUCCESS` to `READY`, then
write the status on the document with the given `_id`. -/
def update_mongo_state (store : List Dict) (id : Option Val) (state : String) :
    List Dict :=
  mongoUpdateStatus store id (statusWrite state)

/-- The state `update_states` attributes to a tracked handle: `req.state`
for an `AsyncResult`, and the loop's default `'PENDING'` for an ObjectId
(the `isinstance(req, bson.objectid.ObjectId)` branch only prints). -/
def taskState (report : Report) : Handle → String
  | Handle.async n => report n
  | Handle.objId _ => "PENDING"

/-- The store after `imagemngr.update_states` walks `self.tasks` in order,
writing each handle's reported state onto its image's document. -/
def updateStatesStore (report : Report) (tasks : List (Handle × Option Val))
    (store : List Dict) : List Dict :=
  tasks.foldl (fun st t => update_mongo_state st t.2 (taskState report t.1)) store

/-- `imagemngr.update_states`. -/
def update_states (report : Report) (m : Mgr) : Mgr :=
  { m with store := updateStatesStore report m.tasks m.store }

/-- The identity key of a document: its `system`, `itype`, `tag` fields. -/
def recKey (r : Dict) : Option Val × Option Val × Option Val :=
  (dget r "system", dget r "itype", dget r "tag")

/-- `collection.find_one(q)`: the first matching document, if any. -/
def find_one (store : List Dict) (p : Dict → Bool) : Option Dict :=
  store.find? p

/-- The query `{'system':image['system'],'itype':image['itype'],
'tag':image['tag']}` as a predicate on documents. -/
def keyMatch (image : Dict) (r : Dict) : Bool :=
  decide (recKey r = recKey image)

/-- `imagemngr.lookup`: refresh in-flight task states, then find the record
for the image's identity key. -/
def lookup (report : Report) (image : Dict) (m : Mgr) : Option Dict × Mgr :=
  let m1 := update_states report m
  (find_one m1.store (keyMatch image), m1)

/-- `imagemngr.isready`: the stored record exists, has a `status` field and
it equals `'READY'` (no state refresh here). -/
def isready (image : Dict) (m : Mgr) : Bool :=
  match find_one m.store (keyMatch image) with
  | some rec => decide (dget rec "status" = some (Val.str "READY"))
  | none => false

/-- The default metadata `new_image_record` starts from. -/
def newimageDefaults : Dict :=
  [("format", Val.str "ext4"), ("arch", Val.str "amd64"),
   ("os", Val.str "linux"), ("location", Val.str ""),
   ("remotetype", Val.str "dockerv2"), ("ostcount", Val.str "0"),
   ("replication", Val.str "1"), ("userAcl", Val.arr []),
   ("status", Val.str "UNKNOWN"), ("groupAcl", Val.arr [])]

/-- `for p in image: newimage[p] = image[p]` over the defaults. -/
def mergeImage (image : Dict) : Dict :=
  image.foldl (fun d p => dset d p.1 p.2) newimageDefaults

/-- `imagemngr.new_image_record`: return the existing record if the
(refreshed) store has one for this key, else insert the defaults merged
with the caller's fields; the insert stamps a fresh `_id` on the document. -/
def new_image_record (report : Report) (image : Dict) (m : Mgr) : Dict × Mgr :=
  match lookup report image m with
  | (some record, m1) => (record, m1)
  | (none, m1) =>
    let newimage := dset (mergeImage image) "_id" (Val.oid m1.nextId)
    (newimage, { m1 with store := m1.store ++ [newimage], nextId := m1.nextId + 1 })

/-- `imagemngr.pull` (with the gateway's default `delay=True`): if the
record is not READY, create-or-fetch the record, set its status to
`ENQUEUED`, submit `dopull` on the queue named by `request['system']` and
track the returned handle; else just return the existing record's id.
`dispatchOk = false` models `apply_async` raising: the exception propagates
(`Except.error`) with the state as of the raise. -/
def pull (dispatchOk : Bool) (report : Report) (request : Dict) (m : Mgr) :
    Except Unit (Option Val) × Mgr :=
  if isready request m = false then
    let rm := new_image_record report request m
    let id := dget rm.1 "_id"
    let m2 := { rm.2 with store := update_mongo_state rm.2.store id "ENQUEUED" }
    if dispatchOk then
      (Except.ok id,
       { m2 with
          subs := m2.subs ++ [(request, dget request "system")],
          nextTask := m2.nextTask + 1,
          tasks := m2.tasks ++ [(Handle.async m2.nextTask, id)] })
    else
      (Except.error (), m2)
  else
    let rm := new_image_record report request m
    (Except.ok (dget rm.1 "_id"), rm.2)

/-- `imagemngr.get_state`: refresh task states, then read
`find_one({'_id':id},{'status':1})['status']`; `none` models the Python
exception raised when no document matches (or the projection lacks the
field). -/
def get_state (report : Report) (id : Option Val) (m : Mgr) :
    Option Val × Mgr :=
  let m1 := update_states report m
  match find_one m1.store (fun r => decide (dget r "_id" = id)) with
  | some rec => (dget rec "status", m1)
  | none => (none, m1)

/-- `imagemngr.expire`: the reference implementation is a stub that builds
an empty response dict and returns it, touching nothing. -/
def expire (_system _itype _tag : String) (_id : Option Val) (m : Mgr) :
    Dict × Mgr :=
  ([], m)

/-- The record fields exposed by the API layer's `create_response`. -/
def responseFields : List String :=
  ["id", "system", "itype", "tag", "status", "userAcl", "groupAcl",
   "ENV", "ENTRY", "WORKDIR", "last_pull"]

/-- `imagegwapi.create_response`: copy each exposed field from the record,
substituting the string `'MISSING'` when the record lacks the field
(the `KeyError` branch). -/
def create_response (rec : Dict) : Dict :=
  responseFields.foldl
    (fun resp field =>
      match dget rec field with
      | some v => dset resp field v
      | none => dset resp field (Val.str "MISSING"))
    []

/-- One public orchestrator operation, with the dispatcher oracle it runs
under. -/
inductive Op where
  | lookupOp (report : Report) (image : Dict)
  | pullOp (dispatchOk : Bool) (report : Report) (request : Dict)
  | getStateOp (report : Report) (id : Option Val)
  | expireOp (system itype tag : String) (id : Option Val)
  | updateStatesOp (report : Report)

/-- The state change an operation makes. -/
def step (m : Mgr) : Op → Mgr
  | Op.lookupOp report image => (lookup report image m).2
  | Op.pullOp dOk report request => (pull dOk report request m).2
  | Op.getStateOp report id => (get_state report id m).2
  | Op.expireOp s i t id => (expire s i t id m).2
  | Op.updateStatesOp report => update_states report m

/-- Run a sequence of orchestrator operations. -/
def run (ops : List Op) (m : Mgr) : Mgr :=
  ops.foldl step m

/-- A well-formed Python dict: keys are unique. -/
def dictWF (d : Dict) : Prop :=
  (d.map Prod.fst).Nodup

/-- Requests fed to `pull` are well-formed dicts; other operations need
nothing. -/
def Op.wf : Op → Prop
  | Op.pullOp _ _ request => dictWF request
  | _ => True

/-- The store holds at most one record per identity key. -/
def uniqueKeys (store : List Dict) : Prop :=
  (store.map recKey).Nodup

/-- No stored record has status `SUCCESS`. -/
def noSuccess (store : List Dict) : Prop :=
  ∀ r ∈ store, dget r "status" ≠ some (Val.str "SUCCESS")

/-- Every ObjectId-valued `_id` in the store is below the fresh-id counter. -/
def idsFresh (m : Mgr) : Prop :=
  ∀ r ∈ m.store, ∀ n, dget r "_id" = some (Val.oid n) → n < m.nextId

/-! Generic dictionary lemmas. -/

theorem dget_dset_same (d : Dict) (k : String) (v : Val) :
    dget (dset d k v) k = some v := by
  induction d with
  | nil => simp [dget, dset]
  | cons p d ih =>
    by_cases hk : p.1 = k
    · simp [dget, dset, hk]
    · simp [dget, dset, hk, ih]

theorem dget_dset_ne (d : Dict) (k k' : String) (v : Val) (h : k' ≠ k) :
    dget (dset d k v) k' = dget d k' := by
  have hkk : ¬(k = k') := fun he => h he.symm
  induction d with
  | nil => simp [dget, dset, hkk]
  | cons p d ih =>
    obtain ⟨a, b⟩ := p
    by_cases ha : a = k
    · subst ha
      simp [dget, dset, hkk]
    · simp [dget, dset, ha, ih]

theorem dget_eq_none_iff (d : Dict) (k : String) :
    dget d k = none ↔ ∀ v, (k, v) ∉ d := by
  induction d with
  | nil => simp [dget]
  | cons p d ih =>
    obtain ⟨a, b⟩ := p
    by_cases ha : a = k
    · subst ha
      simp only [dget, if_pos rfl, List.mem_cons]
      constructor
      · intro h
        simp at h
      · intro h
        exact absurd (Or.inl rfl) (h b)
    · simp only [dget, ha, if_false, ih, List.mem_cons]
      constructor
      · intro h v hv
        rcases hv with he | hm
        · exact ha (congrArg Prod.fst he).symm
        · exact h v hm
      · intro h v hv
        exact h v (Or.inr hv)

theorem mem_of_dget (d : Dict) (k : String) (v : Val)
    (h : dget d k = some v) : (k, v) ∈ d := by
  induction d with
  | nil => simp [dget] at h
  | cons p d ih =>
    obtain ⟨a, b⟩ := p
    by_cases ha : a = k
    · subst ha
      simp [dget] at h
      subst h
      exact List.mem_cons_self _ _
    · simp only [dget, ha, if_false] at h
      exact List.mem_cons_of_mem _ (ih h)

/-! Lemmas about the `for p in image: newimage[p] = image[p]` fold. -/

theorem dget_foldl_of_not_mem (ps : Dict) (k : String)
    (h : ∀ v, (k, v) ∉ ps) :
    ∀ init : Dict,
      dget (ps.foldl (fun d p => dset d p.1 p.2) init) k = dget init k := by
  induction ps with
  | nil => intro init; rfl
  | cons p rest ih =>
    intro init
    obtain ⟨a, b⟩ := p
    have hk : k ≠ a := by
      intro he
      subst he
      exact h b (List.mem_cons_self _ _)
    have hrest : ∀ v, (k, v) ∉ rest := by
      intro v hv
      exact h v (List.mem_cons_of_mem _ hv)
    simp only [List.foldl_cons]
    rw [ih hrest, dget_dset_ne _ _ _ _ hk]

theorem dget_foldl_of_mem (ps : Dict) (k : String) (v : Val)
    (hnd : (ps.map Prod.fst).Nodup) (hm : (k, v) ∈ ps) :
    ∀ init : Dict,
      dget (ps.foldl (fun d p => dset d p.1 p.2) init) k = some v := by
  induction ps with
  | nil => simp at hm
  | cons p rest ih =>
    intro init
    obtain ⟨a, b⟩ := p
    simp only [List.map_cons, List.nodup_cons] at hnd
    rcases List.mem_cons.mp hm with he | hmem
    · injection he with h1 h2
      subst h1
      subst h2
      have hrest : ∀ v2, (k, v2) ∉ rest := by
        intro v2 hv2
        exact hnd.1 (List.mem_map_of_mem Prod.fst hv2)
      simp only [List.foldl_cons]
      rw [dget_foldl_of_not_mem rest k hrest, dget_dset_same]
    · simp only [List.foldl_cons]
      exact ih hnd.2 hmem _

theorem dget_mergeImage_of_mem (image : Dict) (k : String) (v : Val)
    (hwf : dictWF image) (h : (k, v) ∈ image) :
    dget (mergeImage image) k = some v :=
  dget_foldl_of_mem image k v hwf h newimageDefaults

theorem dget_mergeImage_of_not_mem (image : Dict) (k : String)
    (h : dget image k = none) :
    dget (mergeImage image) k = dget newimageDefaults k :=
  dget_foldl_of_not_mem image k ((dget_eq_none_iff image k).mp h) newimageDefaults

/-! `find?` helpers. -/

theorem find?_append_left_none {α : Type} (p : α → Bool) (l1 l2 : List α)
    (h : ∀ x ∈ l1, p x = false) :
    List.find? p (l1 ++ l2) = List.find? p l2 := by
  have hnone : List.find? p l1 = none :=
    List.find?_eq_none.mpr (fun x hx => by simp [h x hx])
  rw [List.find?_append, hnone, Option.none_or]

theorem find?_decomp {α : Type} (p : α → Bool) (l : List α) (a : α)
    (h : List.find? p l = some a) :
    ∃ l1 l2, l = l1 ++ a :: l2 ∧ (∀ x ∈ l1, p x = false) ∧ p a = true := by
  induction l with
  | nil => simp at h
  | cons b l ih =>
    by_cases hb : p b
    · rw [List.find?_cons_of_pos _ hb] at h
      refine ⟨[], l, ?_, by simp, ?_⟩
      · simp [(Option.some_inj.mp h)]
      · rw [← Option.some_inj.mp h]; exact hb
    · rw [List.find?_cons_of_neg _ hb] at h
      rcases ih h with ⟨l1, l2, heq, hl1, hpa⟩
      refine ⟨b :: l1, l2, by simp [heq], ?_, hpa⟩
      intro x hx
      rcases List.mem_cons.mp hx with he | hm
      · rw [he]; exact Bool.eq_false_iff.mpr hb
      · exact hl1 x hm

theorem find?_middle {α : Type} (p : α → Bool) (l1 l2 : List α) (a : α)
    (h : ∀ x ∈ l1, p x = false) (ha : p a = true) :
    List.find? p (l1 ++ a :: l2) = some a := by
  rw [find?_append_left_none p l1 _ h, List.find?_cons_of_pos _ ha]

/-! The "same document except possibly the status field" relation, used to
transport facts across `update_states` refreshes. -/

/-- Two documents agreeing on every field except possibly `status`. -/
def SameSk (r r' : Dict) : Prop :=
  ∀ k, k ≠ "status" → dget r k = dget r' k

theorem sameSk_refl (r : Dict) : SameSk r r :=
  fun _ _ => rfl

theorem sameSk_trans {a b c : Dict} (h1 : SameSk a b) (h2 : SameSk b c) :
    SameSk a c :=
  fun k hk => (h1 k hk).trans (h2 k hk)

theorem sameSk_dset_status (r : Dict) (v : Val) :
    SameSk r (dset r "status" v) :=
  fun k hk => (dget_dset_ne r "status" k v hk).symm

theorem sameSk_recKey_eq {r r' : Dict} (h : SameSk r r') :
    recKey r = recKey r' := by
  unfold recKey
  rw [h "system" (by decide), h "itype" (by decide), h "tag" (by decide)]

theorem sameSk_keyMatch_eq (image : Dict) {r r' : Dict} (h : SameSk r r') :
    keyMatch image r = keyMatch image r' := by
  unfold keyMatch
  rw [sameSk_recKey_eq h]

theorem sameSk_id_eq {r r' : Dict} (h : SameSk r r') :
    dget r "_id" = dget r' "_id" :=
  h "_id" (by decide)

/-- Pointwise lifting of a relation to stores of equal length. -/
inductive Rel2 (R : Dict → Dict → Prop) : List Dict → List Dict → Prop where
  | nil : Rel2 R [] []
  | cons {a b : Dict} {l l' : List Dict} :
      R a b → Rel2 R l l' → Rel2 R (a :: l) (b :: l')

theorem rel2_refl {R : Dict → Dict → Prop} (hR : ∀ a, R a a) :
    ∀ l, Rel2 R l l
  | [] => Rel2.nil
  | a :: l => Rel2.cons (hR a) (rel2_refl hR l)

theorem rel2_trans {l1 l2 l3 : List Dict}
    (h1 : Rel2 SameSk l1 l2) (h2 : Rel2 SameSk l2 l3) : Rel2 SameSk l1 l3 := by
  induction h1 generalizing l3 with
  | nil => cases h2; exact Rel2.nil
  | cons hab hl ih =>
    cases h2 with
    | cons hbc hl' => exact Rel2.cons (sameSk_trans hab hbc) (ih hl')

theorem rel2_map_eq {β : Type} {f : Dict → β}
    (hf : ∀ a b, SameSk a b → f a = f b) :
    ∀ {l l' : List Dict}, Rel2 SameSk l l' → l.map f = l'.map f := by
  intro l l' h
  induction h with
  | nil => rfl
  | cons hab _ ih => simp [List.map_cons, hf _ _ hab, ih]

theorem rel2_find?_some {p : Dict → Bool}
    (hp : ∀ a b, SameSk a b → p a = p b) :
    ∀ {l l' : List Dict}, Rel2 SameSk l l' → ∀ {r : Dict},
      List.find? p l = some r →
      ∃ r', List.find? p l' = some r' ∧ SameSk r r' := by
  intro l l' h
  induction h with
  | nil => intro r hr; simp at hr
  | cons hab hl ih =>
    intro r hr
    rename_i a b _ _
    by_cases hpa : p a
    · rw [List.find?_cons_of_pos _ hpa] at hr
      refine ⟨b, ?_, ?_⟩
      · rw [List.find?_cons_of_pos _ ((hp a b hab) ▸ hpa)]
      · rw [← Option.some_inj.mp hr]; exact hab
    · rw [List.find?_cons_of_neg _ hpa] at hr
      rcases ih hr with ⟨r', hr', hrel⟩
      refine ⟨r', ?_, hrel⟩
      rw [List.find?_cons_of_neg _ (by rw [← hp a b hab]; exact hpa)]
      exact hr'

theorem rel2_find?_none {p : Dict → Bool}
    (hp : ∀ a b, SameSk a b → p a = p b) :
    ∀ {l l' : List Dict}, Rel2 SameSk l l' →
      List.find? p l = none → List.find? p l' = none := by
  intro l l' h
  induction h with
  | nil => intro; rfl
  | cons hab hl ih =>
    intro hr
    rename_i a b _ _
    by_cases hpa : p a
    · rw [List.find?_cons_of_pos _ hpa] at hr; simp at hr
    · rw [List.find?_cons_of_neg _ hpa] at hr
      rw [List.find?_cons_of_neg _ (by rw [← hp a b hab]; exact hpa)]
      exact ih hr

/-! Status updates and refreshes relate stores by `SameSk`. -/

theorem rel2_mongoUpdateStatus (store : List Dict) (id : Option Val)
    (st : String) : Rel2 SameSk store (mongoUpdateStatus store id st) := by
  induction store with
  | nil => exact Rel2.nil
  | cons r rs ih =>
    by_cases hid : dget r "_id" = id
    · simp only [mongoUpdateStatus, hid, if_true]
      exact Rel2.cons (sameSk_dset_status r _) (rel2_refl sameSk_refl rs)
    · simp only [mongoUpdateStatus, hid, if_false]
      exact Rel2.cons (sameSk_refl r) ih

theorem rel2_update_mongo_state (store : List Dict) (id : Option Val)
    (st : String) : Rel2 SameSk store (update_mongo_state store id st) :=
  rel2_mongoUpdateStatus store id (statusWrite st)

theorem rel2_updateStatesStore (report : Report)
    (tasks : List (Handle × Option Val)) :
    ∀ store : List Dict, Rel2 SameSk store (updateStatesStore report tasks store) := by
  induction tasks with
  | nil => intro store; exact rel2_refl sameSk_refl store
  | cons t ts ih =>
    intro store
    exact rel2_trans (rel2_update_mongo_state store t.2 (taskState report t.1))
      (ih (update_mongo_state store t.2 (taskState report t.1)))

theorem rel2_length {R : Dict → Dict → Prop} :
    ∀ {l l' : List Dict}, Rel2 R l l' → l.length = l'.length := by
  intro l l' h
  induction h with
  | nil => rfl
  | cons _ _ ih => simp [ih]

theorem rel2_append_cons {R : Dict → Dict → Prop} :
    ∀ (l1 : List Dict) {r : Dict} {l2 l' : List Dict},
      Rel2 R (l1 ++ r :: l2) l' →
      ∃ l1' r' l2', l' = l1' ++ r' :: l2' ∧ Rel2 R l1 l1' ∧ R r r' ∧
        Rel2 R l2 l2' := by
  intro l1
  induction l1 with
  | nil =>
    intro r l2 l' h
    cases h with
    | cons hr hl => exact ⟨[], _, _, rfl, Rel2.nil, hr, hl⟩
  | cons a l1 ih =>
    intro r l2 l' h
    cases h with
    | cons ha hl =>
      rcases ih hl with ⟨l1', r', l2', he, hr1, hr2, hr3⟩
      exact ⟨_ :: l1', r', l2', by rw [he]; rfl, Rel2.cons ha hr1, hr2, hr3⟩

theorem mem_map_transport {β : Type} (f : Dict → β) (store store' : List Dict)
    (h : store'.map f = store.map f) (x : Dict) (hx : x ∈ store') :
    ∃ y ∈ store, f y = f x := by
  have hm : f x ∈ store'.map f := List.mem_map_of_mem f hx
  rw [h] at hm
  rcases List.mem_map.mp hm with ⟨y, hy, hyx⟩
  exact ⟨y, hy, hyx⟩

theorem recKeys_updateStatesStore (report : Report)
    (tasks : List (Handle × Option Val)) (store : List Dict) :
    (updateStatesStore report tasks store).map recKey = store.map recKey :=
  (rel2_map_eq (fun _ _ hab => sameSk_recKey_eq hab)
    (rel2_updateStatesStore report tasks store)).symm

theorem ids_updateStatesStore (report : Report)
    (tasks : List (Handle × Option Val)) (store : List Dict) :
    (updateStatesStore report tasks store).map (fun r => dget r "_id")
      = store.map (fun r => dget r "_id") :=
  (rel2_map_eq (fun _ _ hab => sameSk_id_eq hab)
    (rel2_updateStatesStore report tasks store)).symm

theorem mongoUpdateStatus_decomp (l1 : List Dict) (r : Dict) (l2 : List Dict)
    (idv : Option Val) (st : String)
    (hl1 : ∀ x ∈ l1, ¬(dget x "_id" = idv))
    (hr : dget r "_id" = idv) :
    mongoUpdateStatus (l1 ++ r :: l2) idv st
      = l1 ++ dset r "status" (Val.str st) :: l2 := by
  induction l1 with
  | nil => simp [mongoUpdateStatus, hr]
  | cons a l1 ih =>
    have ha : ¬(dget a "_id" = idv) := hl1 a (List.mem_cons_self _ _)
    simp only [List.cons_append, mongoUpdateStatus, ha, if_false,
      List.cons.injEq, true_and]
    exact ih (fun x hx => hl1 x (List.mem_cons_of_mem _ hx))

theorem recKey_dset_other (d : Dict) (k : String) (v : Val)
    (h1 : "system" ≠ k) (h2 : "itype" ≠ k) (h3 : "tag" ≠ k) :
    recKey (dset d k v) = recKey d := by
  unfold recKey
  rw [dget_dset_ne d k _ v h1, dget_dset_ne d k _ v h2, dget_dset_ne d k _ v h3]

theorem dget_mergeImage_key (request : Dict) (hwf : dictWF request)
    (k : String) (hd : dget newimageDefaults k = none) :
    dget (mergeImage request) k = dget request k := by
  cases hq : dget request k with
  | some v => exact dget_mergeImage_of_mem request k v hwf (mem_of_dget _ _ _ hq)
  | none => rw [dget_mergeImage_of_not_mem request k hq, hd]

theorem recKey_mergeImage (request : Dict) (hwf : dictWF request) :
    recKey (mergeImage request) = recKey request := by
  unfold recKey
  rw [dget_mergeImage_key request hwf "system" (by decide),
    dget_mergeImage_key request hwf "itype" (by decide),
    dget_mergeImage_key request hwf "tag" (by decide)]

theorem recKeys_update_mongo (store : List Dict) (id : Option Val)
    (st : String) :
    (update_mongo_state store id st).map recKey = store.map recKey :=
  (rel2_map_eq (fun _ _ hab => sameSk_recKey_eq hab)
    (rel2_update_mongo_state store id st)).symm

theorem ids_update_mongo (store : List Dict) (id : Option Val) (st : String) :
    (update_mongo_state store id st).map (fun r => dget r "_id")
      = store.map (fun r => dget r "_id") :=
  (rel2_map_eq (fun _ _ hab => sameSk_id_eq hab)
    (rel2_update_mongo_state store id st)).symm

theorem statusWrite_ne_success (s : String) : statusWrite s ≠ "SUCCESS" := by
  unfold statusWrite
  split
  · decide
  · rename_i h
    exact h

theorem noSuccess_mongoUpdateStatus (store : List Dict) (id : Option Val)
    (st : String) (hst : st ≠ "SUCCESS") (h : noSuccess store) :
    noSuccess (mongoUpdateStatus store id st) := by
  induction store with
  | nil => intro r hr; simp [mongoUpdateStatus] at hr
  | cons a rs ih =>
    intro r hr
    by_cases hid : dget a "_id" = id
    · simp only [mongoUpdateStatus, hid, if_true] at hr
      rcases List.mem_cons.mp hr with he | hm
      · subst he
        rw [dget_dset_same]
        intro hc
        simp only [Option.some_inj, Val.str.injEq] at hc
        exact hst hc
      · exact h _ (List.mem_cons_of_mem _ hm)
    · simp only [mongoUpdateStatus, hid, if_false] at hr
      rcases List.mem_cons.mp hr with he | hm
      · subst he
        exact h _ (List.mem_cons_self _ _)
      · exact ih (fun x hx => h x (List.mem_cons_of_mem _ hx)) _ hm

theorem noSuccess_update_mongo (store : List Dict) (id : Option Val)
    (st : String) (h : noSuccess store) :
    noSuccess (update_mongo_state store id st) :=
  noSuccess_mongoUpdateStatus store id (statusWrite st)
    (statusWrite_ne_success st) h

theorem noSuccess_updateStatesStore (report : Report)
    (tasks : List (Handle × Option Val)) :
    ∀ store : List Dict, noSuccess store →
      noSuccess (updateStatesStore report tasks store) := by
  induction tasks with
  | nil => intro store h; exact h
  | cons t ts ih => intro store h; exact ih _ (noSuccess_update_mongo _ _ _ h)

theorem noSuccess_append_enqueued (store : List Dict) (r0 : Dict)
    (h : noSuccess store) :
    noSuccess (store ++ [dset r0 "status" (Val.str "ENQUEUED")]) := by
  intro r hr
  rcases List.mem_append.mp hr with h1 | h2
  · exact h r h1
  · rw [List.mem_singleton.mp h2, dget_dset_same]
    intro hc
    exact absurd hc (by decide)

theorem nodup_append_singleton {β : Type} (l : List β) (a : β)
    (h : l.Nodup) (ha : a ∉ l) : (l ++ [a]).Nodup := by
  apply List.nodup_middle.mpr
  simp only [List.append_nil, List.nodup_cons]
  exact ⟨ha, h⟩

/-! Component equations for `pull` and `new_image_record`, used by the
state-machine invariants. -/

theorem pull_store_eq (dOk : Bool) (report : Report) (request : Dict)
    (m : Mgr) :
    (pull dOk report request m).2.store =
      if isready request m = false then
        update_mongo_state (new_image_record report request m).2.store
          (dget (new_image_record report request m).1 "_id") "ENQUEUED"
      else (new_image_record report request m).2.store := by
  unfold pull
  split
  · split
    · rfl
    · rfl
  · rfl

theorem pull_nextId_eq (dOk : Bool) (report : Report) (request : Dict)
    (m : Mgr) :
    (pull dOk report request m).2.nextId
      = (new_image_record report request m).2.nextId := by
  unfold pull
  split
  · split
    · rfl
    · rfl
  · rfl

theorem new_image_record_cases (report : Report) (image : Dict) (m : Mgr) :
    (∃ r1, List.find? (keyMatch image)
        (updateStatesStore report m.tasks m.store) = some r1 ∧
      (new_image_record report image m).1 = r1 ∧
      (new_image_record report image m).2.store
        = updateStatesStore report m.tasks m.store ∧
      (new_image_record report image m).2.nextId = m.nextId) ∨
    (List.find? (keyMatch image)
        (updateStatesStore report m.tasks m.store) = none ∧
      (new_image_record report image m).1
        = dset (mergeImage image) "_id" (Val.oid m.nextId) ∧
      (new_image_record report image m).2.store
        = updateStatesStore report m.tasks m.store ++
          [dset (mergeImage image) "_id" (Val.oid m.nextId)] ∧
      (new_image_record report image m).2.nextId = m.nextId + 1) := by
  unfold new_image_record lookup
  simp only [find_one, update_states]
  cases hfo : List.find? (keyMatch image)
      (updateStatesStore report m.tasks m.store) with
  | some r1 => exact Or.inl ⟨r1, rfl, rfl, rfl, rfl⟩
  | none => exact Or.inr ⟨rfl, rfl, rfl, rfl⟩

theorem isready_true_find (image : Dict) (m : Mgr)
    (h : isready image m = true) :
    ∃ rec, find_one m.store (keyMatch image) = some rec := by
  match hfo : find_one m.store (keyMatch image) with
  | some rec => exact ⟨rec, rfl⟩
  | none =>
    unfold isready at h
    rw [hfo] at h
    simp at h

theorem get_state_state_eq (report : Report) (id : Option Val) (m : Mgr) :
    (get_state report id m).2 = update_states report m := by
  unfold get_state
  cases hf : List.find? (fun r => decide (dget r "_id" = id))
      (update_states report m).store with
  | some rec => simp only [find_one, hf]
  | none => simp only [find_one, hf]

/-! Preservation of the identity-key uniqueness invariant. -/

theorem uniqueKeys_new_image_record (report : Report) (image : Dict) (m : Mgr)
    (hwf : dictWF image) (h : uniqueKeys m.store) :
    uniqueKeys (new_image_record report image m).2.store := by
  have hm1 : uniqueKeys (updateStatesStore report m.tasks m.store) := by
    unfold uniqueKeys
    rw [recKeys_updateStatesStore]
    exact h
  rcases new_image_record_cases report image m with
    ⟨r1, hfo, hfst, hst, hni⟩ | ⟨hfo, hfst, hst, hni⟩
  · rw [hst]
    exact hm1
  · rw [hst]
    unfold uniqueKeys
    rw [List.map_append]
    simp only [List.map_cons, List.map_nil]
    apply nodup_append_singleton
    · exact hm1
    · rw [recKey_dset_other _ _ _ (by decide) (by decide) (by decide),
        recKey_mergeImage image hwf]
      intro hc
      rcases List.mem_map.mp hc with ⟨y, hy, hyk⟩
      apply List.find?_eq_none.mp hfo y hy
      simp [keyMatch, hyk]

theorem uniqueKeys_pull (dOk : Bool) (report : Report) (request : Dict)
    (m : Mgr) (hwf : dictWF request) (h : uniqueKeys m.store) :
    uniqueKeys (pull dOk report request m).2.store := by
  have hn := uniqueKeys_new_image_record report request m hwf h
  rw [pull_store_eq]
  split
  · unfold uniqueKeys
    rw [recKeys_update_mongo]
    exact hn
  · exact hn

theorem uniqueKeys_step (m : Mgr) (op : Op) (hwf : op.wf)
    (h : uniqueKeys m.store) : uniqueKeys (step m op).store := by
  cases op with
  | lookupOp report image =>
    show uniqueKeys (updateStatesStore report m.tasks m.store)
    unfold uniqueKeys
    rw [recKeys_updateStatesStore]
    exact h
  | pullOp dOk report request => exact uniqueKeys_pull dOk report request m hwf h
  | getStateOp report id =>
    show uniqueKeys (get_state report id m).2.store
    rw [get_state_state_eq report id m]
    show uniqueKeys (updateStatesStore report m.tasks m.store)
    unfold uniqueKeys
    rw [recKeys_updateStatesStore]
    exact h
  | expireOp s i t id => exact h
  | updateStatesOp report =>
    show uniqueKeys (updateStatesStore report m.tasks m.store)
    unfold uniqueKeys
    rw [recKeys_updateStatesStore]
    exact h

theorem uniqueKeys_run (ops : List Op) : ∀ m : Mgr, (∀ op ∈ ops, op.wf) →
    uniqueKeys m.store → uniqueKeys (run ops m).store := by
  induction ops with
  | nil => intro m _ h; exact h
  | cons op ops ih =>
    intro m hwf h
    exact ih (step m op) (fun o ho => hwf o (List.mem_cons_of_mem _ ho))
      (uniqueKeys_step m op (hwf op (List.mem_cons_self _ _)) h)

/-! Preservation of the "no stored SUCCESS status" invariant. -/

theorem inv_update_states (report : Report) (m : Mgr)
    (h : noSuccess m.store) (hfr : idsFresh m) :
    noSuccess (update_states report m).store ∧
      idsFresh (update_states report m) := by
  constructor
  · exact noSuccess_updateStatesStore report m.tasks m.store h
  · intro r hr n hrn
    rcases mem_map_transport (fun r => dget r "_id") m.store _
        (ids_updateStatesStore report m.tasks m.store) r hr with ⟨y, hy, hyx⟩
    exact hfr y hy n (by rw [hyx, hrn])

theorem inv_pull (dOk : Bool) (report : Report) (request : Dict) (m : Mgr)
    (h : noSuccess m.store) (hfr : idsFresh m) :
    noSuccess (pull dOk report request m).2.store ∧
      idsFresh (pull dOk report request m).2 := by
  have hm1s : noSuccess (updateStatesStore report m.tasks m.store) :=
    noSuccess_updateStatesStore report m.tasks m.store h
  have hfr1 : ∀ x ∈ updateStatesStore report m.tasks m.store, ∀ n,
      dget x "_id" = some (Val.oid n) → n < m.nextId := by
    intro x hx n hxn
    rcases mem_map_transport (fun r => dget r "_id") m.store _
        (ids_updateStatesStore report m.tasks m.store) x hx with ⟨y, hy, hyx⟩
    exact hfr y hy n (by rw [hyx, hxn])
  rcases new_image_record_cases report request m with
    ⟨r1, hfo, hfst, hst, hni⟩ | ⟨hfo, hfst, hst, hni⟩
  · have hstore := pull_store_eq dOk report request m
    have hnid := pull_nextId_eq dOk report request m
    rw [hst] at hstore
    rw [hni] at hnid
    constructor
    · rw [hstore]
      split
      · exact noSuccess_update_mongo _ _ _ hm1s
      · exact hm1s
    · intro r hr n hrn
      rw [hnid]
      rw [hstore] at hr
      revert hr
      split
      · intro hr
        rcases mem_map_transport (fun x => dget x "_id") _ _
            (ids_update_mongo (updateStatesStore report m.tasks m.store)
              (dget (new_image_record report request m).1 "_id") "ENQUEUED")
            r hr with ⟨y, hy, hyx⟩
        exact hfr1 y hy n (by rw [hyx, hrn])
      · intro hr
        exact hfr1 r hr n hrn
  · have hstore := pull_store_eq dOk report request m
    have hnid := pull_nextId_eq dOk report request m
    rw [hst, hfst, dget_dset_same] at hstore
    rw [hni] at hnid
    have hready : isready request m = false := by
      cases hb : isready request m with
      | false => rfl
      | true =>
        rcases isready_true_find request m hb with ⟨rec, hrec⟩
        rcases rel2_find?_some (fun a b hab => sameSk_keyMatch_eq request hab)
            (rel2_updateStatesStore report m.tasks m.store) hrec with
          ⟨r', hr', _⟩
        rw [hfo] at hr'
        simp at hr'
    rw [if_pos hready] at hstore
    have hl1 : ∀ x ∈ updateStatesStore report m.tasks m.store,
        ¬(dget x "_id" = some (Val.oid m.nextId)) := by
      intro x hx hc
      exact absurd (hfr1 x hx m.nextId hc) (lt_irrefl _)
    have hdec : update_mongo_state
        (updateStatesStore report m.tasks m.store ++
          [dset (mergeImage request) "_id" (Val.oid m.nextId)])
        (some (Val.oid m.nextId)) "ENQUEUED"
        = updateStatesStore report m.tasks m.store ++
          [dset (dset (mergeImage request) "_id" (Val.oid m.nextId))
            "status" (Val.str "ENQUEUED")] := by
      unfold update_mongo_state statusWrite
      rw [if_neg (by decide : ¬(("ENQUEUED" : String) = "SUCCESS"))]
      exact mongoUpdateStatus_decomp _ _ [] _ _ hl1 (dget_dset_same _ _ _)
    rw [hdec] at hstore
    constructor
    · rw [hstore]
      exact noSuccess_append_enqueued _ _ hm1s
    · intro r hr n hrn
      rw [hnid]
      rw [hstore] at hr
      rcases List.mem_append.mp hr with h1 | h2
      · exact Nat.lt_succ_of_lt (hfr1 r h1 n hrn)
      · rw [List.mem_singleton.mp h2,
          dget_dset_ne _ _ _ _ (by decide : ("_id" : String) ≠ "status"),
          dget_dset_same] at hrn
        simp only [Option.some_inj, Val.oid.injEq] at hrn
        omega

theorem inv_step (m : Mgr) (op : Op) (h : noSuccess m.store)
    (hfr : idsFresh m) :
    noSuccess (step m op).store ∧ idsFresh (step m op) := by
  cases op with
  | lookupOp report image => exact inv_update_states report m h hfr
  | pullOp dOk report request => exact inv_pull dOk report request m h hfr
  | getStateOp report id =>
    show noSuccess (get_state report id m).2.store ∧
      idsFresh (get_state report id m).2
    rw [get_state_state_eq report id m]
    exact inv_update_states report m h hfr
  | expireOp s i t id => exact ⟨h, hfr⟩
  | updateStatesOp report => exact inv_update_states report m h hfr

theorem inv_run (ops : List Op) : ∀ m : Mgr, noSuccess m.store → idsFresh m →
    noSuccess (run ops m).store ∧ idsFresh (run ops m) := by
  induction ops with
  | nil => intro m h hf; exact ⟨h, hf⟩
  | cons op ops ih =>
    intro m h hf
    rcases inv_step m op h hf with ⟨h1, h2⟩
    exact ih (step m op) h1 h2

/-! Lemmas for `create_response`. -/

theorem dset_append_fresh (d : Dict) (k : String) (v : Val)
    (h : ∀ v2, (k, v2) ∉ d) : dset d k v = d ++ [(k, v)] := by
  induction d with
  | nil => rfl
  | cons p d ih =>
    obtain ⟨a, b⟩ := p
    have hk : ¬(a = k) := fun he => h b (by rw [he]; exact List.mem_cons_self _ _)
    simp only [dset, hk, if_false, List.cons_append, List.cons.injEq, true_and]
    exact ih (fun v2 hv2 => h v2 (List.mem_cons_of_mem _ hv2))

theorem create_response_eq_aux (rec : Dict) (fields : List String) :
    ∀ resp : Dict, (∀ f ∈ fields, ∀ v, (f, v) ∉ resp) → fields.Nodup →
      fields.foldl
        (fun resp field =>
          match dget rec field with
          | some v => dset resp field v
          | none => dset resp field (Val.str "MISSING")) resp
      = resp ++ fields.map (fun f => (f, (dget rec f).getD (Val.str "MISSING"))) := by
  induction fields with
  | nil => intro resp _ _; simp
  | cons f fs ih =>
    intro resp hfresh hnd
    simp only [List.foldl_cons, List.map_cons]
    have hstep :
        (match dget rec f with
         | some v => dset resp f v
         | none => dset resp f (Val.str "MISSING"))
        = resp ++ [(f, (dget rec f).getD (Val.str "MISSING"))] := by
      cases hd : dget rec f with
      | some v => exact dset_append_fresh resp f v (hfresh f (by simp))
      | none => exact dset_append_fresh resp f _ (hfresh f (by simp))
    have hfresh' : ∀ g ∈ fs, ∀ v,
        (g, v) ∉ resp ++ [(f, (dget rec f).getD (Val.str "MISSING"))] := by
      intro g hg v hv
      rcases List.mem_append.mp hv with hv1 | hv2
      · exact hfresh g (List.mem_cons_of_mem _ hg) v hv1
      · have hgf : g = f := congrArg Prod.fst (List.mem_singleton.mp hv2)
        exact (List.nodup_cons.mp hnd).1 (hgf ▸ hg)
    rw [hstep, ih _ hfresh' (List.nodup_cons.mp hnd).2, List.append_assoc]
    rfl

theorem create_response_as_map (rec : Dict) :
    create_response rec
      = responseFields.map (fun f => (f, (dget rec f).getD (Val.str "MISSING"))) := by
  have h := create_response_eq_aux rec responseFields [] (by simp) (by decide)
  simpa [create_response] using h

theorem dget_map_mem (g : String → Val) (fields : List String) (f : String) :
    f ∈ fields → dget (fields.map (fun x => (x, g x))) f = some (g f) := by
  induction fields with
  | nil => simp
  | cons a fs ih =>
    intro hf
    by_cases ha : a = f
    · subst ha
      simp [dget]
    · rcases List.mem_cons.mp hf with he | hm
      · exact absurd he.symm ha
      · simp only [List.map_cons, dget, ha, if_false]
        exact ih hm

theorem dget_map_not_mem (g : String → Val) (fields : List String) (f : String)
    (h : f ∉ fields) : dget (fields.map (fun x => (x, g x))) f = none := by
  induction fields with
  | nil => rfl
  | cons a fs ih =>
    have ha : ¬(a = f) := fun he => h (by rw [he]; exact List.mem_cons_self _ _)
    simp only [List.map_cons, dget, ha, if_false]
    exact ih (fun hm => h (List.mem_cons_of_mem _ hm))

/-! Concrete fixtures used to exercise the model on the spec's example
inputs. -/

/-- The spec's concrete pull request. -/
def reqEdison : Dict :=
  [("system", Val.str "edison"), ("itype", Val.str "docker"),
   ("tag", Val.str "ubuntu:15.04")]

/-- A fresh manager over an empty store. -/
def mgr0 : Mgr :=
  ⟨[], 0, [], [], 0⟩

/-- Dispatcher oracle: every async task reports `PENDING`. -/
def repPending : Report :=
  fun _ => "PENDING"

/-- Dispatcher oracle: every async task reports `SUCCESS`. -/
def repSuccess : Report :=
  fun _ => "SUCCESS"

/-- A store holding one `READY` record for the example key. -/
def recReady : Dict :=
  [("system", Val.str "edison"), ("itype", Val.str "docker"),
   ("tag", Val.str "ubuntu:15.04"), ("status", Val.str "READY"),
   ("_id", Val.oid 0)]

/-- Manager whose store holds just `recReady`. -/
def mgrReady : Mgr :=
  ⟨[recReady], 1, [], [], 0⟩

/-- A `FAILURE` record for the example key whose `location` field is `"X"`. -/
def recFailedX : Dict :=
  [("system", Val.str "edison"), ("itype", Val.str "docker"),
   ("tag", Val.str "ubuntu:15.04"), ("location", Val.str "X"),
   ("status", Val.str "FAILURE"), ("_id", Val.oid 0)]

/-- Manager whose store holds just `recFailedX`. -/
def mgrFailed : Mgr :=
  ⟨[recFailedX], 1, [], [], 0⟩

/-- The example request additionally supplying a `location` of `"Y"`. -/
def reqLocY : Dict :=
  reqEdison ++ [("location", Val.str "Y")]

/-- Claim C1 (code bug): with the stored record already `ENQUEUED` (and one
dispatcher submission made), a second `pull` for the same key submits a
second fetch job to the dispatcher instead of returning without submitting:
the submission log grows from one entry to two. -/
theorem pull_resubmits_while_enqueued :
    ((pull true repPending reqEdison mgr0).2.store.map (fun r => dget r "status")
        = [some (Val.str "ENQUEUED")]) ∧
    (pull true repPending reqEdison mgr0).2.subs.length = 1 ∧
    (pull true repPending reqEdison
        (pull true repPending reqEdison mgr0).2).2.subs.length = 2 := by
  decide

/-- Claim C2 (code bug): after the worker reports `SUCCESS`, `get_state`
returns `READY`; a later refresh in which the dispatcher reports a stale
`PENDING` for the still-tracked handle moves the record back to `PENDING`,
so the status regresses from `READY`. -/
theorem stale_report_regresses_ready :
    ((get_state repSuccess (some (Val.oid 0))
        (pull true repPending reqEdison mgr0).2).1 = some (Val.str "READY")) ∧
    ((get_state repPending (some (Val.oid 0))
        (get_state repSuccess (some (Val.oid 0))
          (pull true repPending reqEdison mgr0).2).2).1
        = some (Val.str "PENDING")) := by
  decide

/-- Claim C5 (code bug): `expire` is an acknowledgement stub: it returns an
empty response and leaves the manager untouched, so a `lookup` right after
expiring an existing record still finds the record rather than reporting
it gone. -/
theorem expire_is_stub :
    (∀ s i t id m, expire s i t id m = ([], m)) ∧
    (lookup repPending reqEdison
        (expire "edison" "docker" "ubuntu:15.04" (some (Val.oid 0)) mgrReady).2).1
      ≠ none := by
  exact ⟨fun _ _ _ _ _ => rfl, by decide⟩

/-- Claim C6 (code bug): when the dispatcher submission itself fails, the
error propagates to the caller, but the record is left with status
`ENQUEUED`, not `FAILURE`. -/
theorem dispatch_error_leaves_enqueued :
    ((pull false repPending reqEdison mgr0).1 = Except.error ()) ∧
    ((pull false repPending reqEdison mgr0).2.store.map (fun r => dget r "status")
        = [some (Val.str "ENQUEUED")]) ∧
    ((pull false repPending reqEdison mgr0).2.store.map (fun r => dget r "status")
        ≠ [some (Val.str "FAILURE")]) := by
  exact ⟨rfl, by decide, by decide⟩

/-- Claim C3 (counterexample): on a record with status `FAILURE`, `pull`
does not overwrite the record with the defaults merged with the
caller-supplied fields: the caller supplies `location = "Y"`, yet the
record's `location` stays `"X"` after the pull. -/
theorem pull_failure_no_overwrite :
    dget reqLocY "location" = some (Val.str "Y") ∧
    dget recFailedX "status" = some (Val.str "FAILURE") ∧
    ((pull true repPending reqLocY mgrFailed).2.store.map (fun r => dget r "location")
        = [some (Val.str "X")]) := by
  decide

/-- Claim C3 (amended): when no record exists for the key, `pull` inserts a
record whose fields are the default metadata overridden by the
caller-supplied fields, sets its status to `ENQUEUED`, submits exactly one
fetch job on the queue named by the request's `system`, and returns the
fresh record id; when the existing record has status `FAILURE`, `pull`
reuses that record without touching its non-status fields, sets its status
to `ENQUEUED`, submits exactly one fetch job on the same queue, and
returns the existing record's id. -/
theorem pull_fresh_or_failed_enqueues (report : Report) (request : Dict)
    (m : Mgr) :
    ((∀ r ∈ m.store, recKey r ≠ recKey request) →
     (∀ r ∈ m.store, dget r "_id" ≠ some (Val.oid m.nextId)) →
     dictWF request →
     (pull true report request m).1 = Except.ok (some (Val.oid m.nextId)) ∧
     (pull true report request m).2.subs
         = m.subs ++ [(request, dget request "system")] ∧
     (pull true report request m).2.store.length = m.store.length + 1 ∧
     (∃ r', find_one (pull true report request m).2.store (keyMatch request)
          = some r' ∧
        dget r' "status" = some (Val.str "ENQUEUED") ∧
        dget r' "_id" = some (Val.oid m.nextId) ∧
        (∀ k v, k ≠ "status" → k ≠ "_id" → (k, v) ∈ request →
          dget r' k = some v) ∧
        (∀ k, k ≠ "status" → k ≠ "_id" → dget request k = none →
          dget r' k = dget newimageDefaults k))) ∧
    (∀ r idv, find_one m.store (keyMatch request) = some r →
      dget r "status" = some (Val.str "FAILURE") →
      dget r "_id" = some idv →
      (m.store.map (fun x => dget x "_id")).Nodup →
      (pull true report request m).1 = Except.ok (some idv) ∧
      (pull true report request m).2.subs
          = m.subs ++ [(request, dget request "system")] ∧
      (pull true report request m).2.store.length = m.store.length ∧
      (∃ r', find_one (pull true report request m).2.store (keyMatch request)
           = some r' ∧
         dget r' "status" = some (Val.str "ENQUEUED") ∧
         (∀ k, k ≠ "status" → dget r' k = dget r k))) := by
  constructor
  · intro h1 h2 hwf
    have hnone : find_one m.store (keyMatch request) = none := by
      apply List.find?_eq_none.mpr
      intro x hx
      simp only [keyMatch, decide_eq_true_eq]
      exact h1 x hx
    have hir : isready request m = false := by
      simp [isready, hnone]
    have hrel : Rel2 SameSk m.store (updateStatesStore report m.tasks m.store) :=
      rel2_updateStatesStore report m.tasks m.store
    have hnone1 : List.find? (keyMatch request)
        (updateStatesStore report m.tasks m.store) = none :=
      rel2_find?_none (fun a b hab => sameSk_keyMatch_eq request hab) hrel hnone
    have hnir : new_image_record report request m
        = (dset (mergeImage request) "_id" (Val.oid m.nextId),
           { store := updateStatesStore report m.tasks m.store ++
               [dset (mergeImage request) "_id" (Val.oid m.nextId)],
             nextId := m.nextId + 1,
             tasks := m.tasks, subs := m.subs, nextTask := m.nextTask }) := by
      unfold new_image_record lookup
      simp only [find_one, update_states]
      rw [hnone1]
    have hfresh1 : ∀ x ∈ updateStatesStore report m.tasks m.store,
        ¬(dget x "_id" = some (Val.oid m.nextId)) := by
      intro x hx hxid
      rcases mem_map_transport (fun r => dget r "_id") m.store _
          (ids_updateStatesStore report m.tasks m.store) x hx with ⟨y, hy, hyx⟩
      exact h2 y hy (by rw [hyx, hxid])
    have hupd : update_mongo_state
        (updateStatesStore report m.tasks m.store ++
          [dset (mergeImage request) "_id" (Val.oid m.nextId)])
        (some (Val.oid m.nextId)) "ENQUEUED"
        = updateStatesStore report m.tasks m.store ++
          [dset (dset (mergeImage request) "_id" (Val.oid m.nextId))
            "status" (Val.str "ENQUEUED")] := by
      unfold update_mongo_state statusWrite
      rw [if_neg (by decide : ¬(("ENQUEUED" : String) = "SUCCESS"))]
      exact mongoUpdateStatus_decomp _ _ [] _ _ hfresh1 (dget_dset_same _ _ _)
    have hpull : pull true report request m
        = (Except.ok (some (Val.oid m.nextId)),
           { store := updateStatesStore report m.tasks m.store ++
               [dset (dset (mergeImage request) "_id" (Val.oid m.nextId))
                 "status" (Val.str "ENQUEUED")],
             nextId := m.nextId + 1,
             tasks := m.tasks ++ [(Handle.async m.nextTask, some (Val.oid m.nextId))],
             subs := m.subs ++ [(request, dget request "system")],
             nextTask := m.nextTask + 1 }) := by
      unfold pull
      rw [if_pos hir, hnir]
      simp only [dget_dset_same, hupd, if_true]
    rw [hpull]
    refine ⟨rfl, rfl, ?_, ?_⟩
    · simp only [List.length_append, List.length_cons, List.length_nil]
      rw [← rel2_length hrel]
    · refine ⟨dset (dset (mergeImage request) "_id" (Val.oid m.nextId))
        "status" (Val.str "ENQUEUED"), ?_, dget_dset_same _ _ _, ?_, ?_, ?_⟩
      · apply find?_middle
        · intro x hx
          have hkx : recKey x ≠ recKey request := by
            rcases mem_map_transport recKey m.store _
                (recKeys_updateStatesStore report m.tasks m.store) x hx with
              ⟨y, hy, hyx⟩
            rw [← hyx]
            exact h1 y hy
          simp [keyMatch, hkx]
        · simp only [keyMatch, decide_eq_true_eq]
          rw [recKey_dset_other _ _ _ (by decide) (by decide) (by decide),
            recKey_dset_other _ _ _ (by decide) (by decide) (by decide),
            recKey_mergeImage request hwf]
      · rw [dget_dset_ne _ _ _ _ (by decide : ("_id" : String) ≠ "status")]
        exact dget_dset_same _ _ _
      · intro k v hks hki hkm
        rw [dget_dset_ne _ _ _ _ hks, dget_dset_ne _ _ _ _ hki]
        exact dget_mergeImage_of_mem request k v hwf hkm
      · intro k hks hki hkn
        rw [dget_dset_ne _ _ _ _ hks, dget_dset_ne _ _ _ _ hki]
        exact dget_mergeImage_of_not_mem request k hkn
  · intro r idv hfind hfail hid hnd
    have hir : isready request m = false := by
      simp [isready, hfind, hfail]
    rcases find?_decomp (keyMatch request) m.store r hfind with
      ⟨l1, l2, hsplit, hl1, hpr⟩
    have hrel : Rel2 SameSk m.store (updateStatesStore report m.tasks m.store) :=
      rel2_updateStatesStore report m.tasks m.store
    have hrel2 : Rel2 SameSk (l1 ++ r :: l2)
        (updateStatesStore report m.tasks m.store) := by
      nth_rewrite 1 [← hsplit]
      exact hrel
    rcases rel2_append_cons l1 hrel2 with
      ⟨l1', r1', l2', hm1, hrl1, hrr, hrl2⟩
    have hl1' : ∀ x ∈ l1', keyMatch request x = false := by
      have hn : List.find? (keyMatch request) l1' = none := by
        apply rel2_find?_none (fun a b hab => sameSk_keyMatch_eq request hab) hrl1
        exact List.find?_eq_none.mpr (fun x hx => by simp [hl1 x hx])
      intro x hx
      have := List.find?_eq_none.mp hn x hx
      simpa using this
    have hpr' : keyMatch request r1' = true := by
      rw [← sameSk_keyMatch_eq request hrr]
      exact hpr
    have hid' : dget r1' "_id" = some idv := by
      rw [← sameSk_id_eq hrr]
      exact hid
    have hfind1 : List.find? (keyMatch request)
        (updateStatesStore report m.tasks m.store) = some r1' := by
      rw [hm1]
      exact find?_middle _ _ _ _ hl1' hpr'
    have hnir : new_image_record report request m
        = (r1', { m with store := updateStatesStore report m.tasks m.store }) := by
      unfold new_image_record lookup
      simp only [find_one, update_states]
      rw [hfind1]
    have hidsl1 : ∀ x ∈ l1', ¬(dget x "_id" = some idv) := by
      have hndm : ((l1 ++ r :: l2).map (fun x => dget x "_id")).Nodup := by
        rw [← hsplit]
        exact hnd
      simp only [List.map_append, List.map_cons] at hndm
      have hnm : dget r "_id" ∉ l1.map (fun x => dget x "_id") := by
        have := List.nodup_middle.mp hndm
        rcases List.nodup_cons.mp this with ⟨hnotin, _⟩
        intro hc
        exact hnotin (List.mem_append.mpr (Or.inl hc))
      intro x hx hxid
      have hxl1 : dget x "_id" ∈ l1'.map (fun y => dget y "_id") :=
        List.mem_map_of_mem _ hx
      have hmapeq : l1'.map (fun y => dget y "_id")
          = l1.map (fun y => dget y "_id") :=
        (rel2_map_eq (fun a b hab => sameSk_id_eq hab) hrl1).symm
      rw [hmapeq] at hxl1
      rw [hxid, ← hid] at hxl1
      exact hnm hxl1
    have hupd : update_mongo_state
        (updateStatesStore report m.tasks m.store) (some idv) "ENQUEUED"
        = l1' ++ dset r1' "status" (Val.str "ENQUEUED") :: l2' := by
      unfold update_mongo_state statusWrite
      rw [if_neg (by decide : ¬(("ENQUEUED" : String) = "SUCCESS")), hm1]
      exact mongoUpdateStatus_decomp _ _ _ _ _ hidsl1 hid'
    have hpull : pull true report request m
        = (Except.ok (some idv),
           { store := l1' ++ dset r1' "status" (Val.str "ENQUEUED") :: l2',
             nextId := m.nextId,
             tasks := m.tasks ++ [(Handle.async m.nextTask, some idv)],
             subs := m.subs ++ [(request, dget request "system")],
             nextTask := m.nextTask + 1 }) := by
      unfold pull
      rw [if_pos hir, hnir]
      simp only [hid', hupd, if_true]
    rw [hpull]
    refine ⟨rfl, rfl, ?_, ?_⟩
    · have h1 : m.store.length = l1'.length + (l2'.length + 1) := by
        rw [hsplit]
        simp only [List.length_append, List.length_cons]
        rw [rel2_length hrl1, rel2_length hrl2]
      simp only [List.length_append, List.length_cons]
      rw [h1]
    · refine ⟨dset r1' "status" (Val.str "ENQUEUED"), ?_, dget_dset_same _ _ _, ?_⟩
      · apply find?_middle _ _ _ _ hl1'
        rw [← sameSk_keyMatch_eq request (sameSk_dset_status r1' (Val.str "ENQUEUED"))]
        exact hpr'
      · intro k hk
        rw [dget_dset_ne _ _ _ _ hk]
        exact ((hrr k hk)).symm ▸ rfl

/-- Claim C3 (amended) witness: pulling the example request on the empty
store creates the merged record and submits to queue `"edison"`; pulling a
request on a store holding a `FAILURE` record re-enqueues that record. -/
theorem pull_fresh_or_failed_enqueues_witness :
    ((pull true repPending reqEdison mgr0).1
        = Except.ok (some (Val.oid 0)) ∧
     (pull true repPending reqEdison mgr0).2.subs
        = [(reqEdison, dget reqEdison "system")]) ∧
    ((pull true repPending reqLocY mgrFailed).1 = Except.ok (some (Val.oid 0)) ∧
     (pull true repPending reqLocY mgrFailed).2.subs
        = [(reqLocY, dget reqLocY "system")]) := by
  constructor
  · have h := (pull_fresh_or_failed_enqueues repPending reqEdison mgr0).1
      (by decide) (by decide) (by unfold dictWF; decide)
    exact ⟨h.1, h.2.1⟩
  · have h := (pull_fresh_or_failed_enqueues repPending reqLocY mgrFailed).2
      recFailedX (Val.oid 0) (by decide) (by decide) (by decide) (by decide)
    exact ⟨h.1, h.2.1⟩

/-- Claim C4: when the stored record for the key has status `READY`, `pull`
returns that record's existing id immediately, submits nothing to the
dispatcher and tracks no new task. -/
theorem pull_ready_returns_existing_id (dOk : Bool) (report : Report)
    (request : Dict) (m : Mgr) (r : Dict)
    (hfind : find_one m.store (keyMatch request) = some r)
    (hready : dget r "status" = some (Val.str "READY")) :
    (pull dOk report request m).1 = Except.ok (dget r "_id") ∧
    (pull dOk report request m).2.subs = m.subs ∧
    (pull dOk report request m).2.tasks = m.tasks := by
  have hir : isready request m = true := by
    simp [isready, hfind, hready]
  have hrel : Rel2 SameSk m.store (updateStatesStore report m.tasks m.store) :=
    rel2_updateStatesStore report m.tasks m.store
  obtain ⟨r', hr', hsk⟩ :=
    rel2_find?_some (fun a b hab => sameSk_keyMatch_eq request hab) hrel hfind
  have hnir : new_image_record report request m = (r', update_states report m) := by
    unfold new_image_record lookup
    simp only [find_one, update_states]
    rw [hr']
  have hp : pull dOk report request m
      = (Except.ok (dget r' "_id"), update_states report m) := by
    unfold pull
    rw [hir, hnir]
    simp
  rw [hp]
  exact ⟨by rw [sameSk_id_eq hsk], rfl, rfl⟩

/-- Claim C4 witness: pulling the example key while its record is `READY`
returns the stored id and leaves the submission log and task list empty. -/
theorem pull_ready_returns_existing_id_witness :
    (pull true repPending reqEdison mgrReady).1
        = Except.ok (dget recReady "_id") ∧
    (pull true repPending reqEdison mgrReady).2.subs = mgrReady.subs ∧
    (pull true repPending reqEdison mgrReady).2.tasks = mgrReady.tasks :=
  pull_ready_returns_existing_id true repPending reqEdison mgrReady recReady
    (by decide) (by decide)

/-- Claim C7: `get_state` first refreshes tracked task states; if no record
in the refreshed store carries the requested id the call fails (modelled
as `none`: the mongo read finds nothing and the subscript raises),
otherwise it returns the found record's persisted status. -/
theorem get_state_reads_refreshed_status (report : Report) (id : Option Val)
    (m : Mgr) :
    ((∀ r ∈ (update_states report m).store, dget r "_id" ≠ id) →
      (get_state report id m).1 = none) ∧
    (∀ r, find_one (update_states report m).store
          (fun r => decide (dget r "_id" = id)) = some r →
      (get_state report id m).1 = dget r "status") := by
  constructor
  · intro h
    have hn : List.find? (fun r => decide (dget r "_id" = id))
        (update_states report m).store = none :=
      List.find?_eq_none.mpr (fun x hx => by simp [h x hx])
    unfold get_state
    simp only [find_one] at hn ⊢
    rw [hn]
  · intro r hr
    unfold get_state
    simp only [find_one] at hr ⊢
    rw [hr]

/-- Claim C7 witness: on a store holding one record with id 0, `get_state`
fails for the unknown id 5 and returns the record's status for id 0. -/
theorem get_state_reads_refreshed_status_witness :
    (get_state repPending (some (Val.oid 5)) mgrReady).1 = none ∧
    (get_state repPending (some (Val.oid 0)) mgrReady).1
        = dget recReady "status" :=
  ⟨(get_state_reads_refreshed_status repPending (some (Val.oid 5)) mgrReady).1
      (by decide),
   (get_state_reads_refreshed_status repPending (some (Val.oid 0)) mgrReady).2
      recReady (by decide)⟩

/-- Claim C9: the API response for a record has exactly the eleven exposed
fields in order; each field present in the record is copied through
unchanged, each absent field is rendered as the string `"MISSING"`, and no
other field appears in the response. -/
theorem create_response_exact_fields (rec : Dict) :
    ((create_response rec).map Prod.fst = responseFields) ∧
    (∀ f ∈ responseFields,
      dget (create_response rec) f = some ((dget rec f).getD (Val.str "MISSING"))) ∧
    (∀ f, f ∉ responseFields → dget (create_response rec) f = none) := by
  rw [create_response_as_map]
  refine ⟨?_, ?_, ?_⟩
  · rw [List.map_map]
    exact List.map_id'' (fun x => rfl) responseFields
  · intro f hf
    exact dget_map_mem _ responseFields f hf
  · intro f hf
    exact dget_map_not_mem _ responseFields f hf

/-- Claim C9 witness: rendering the example `READY` record copies `status`
through, renders the absent `ENV` as `"MISSING"`, and exposes no
`location` field. -/
theorem create_response_exact_fields_witness :
    ((create_response recReady).map Prod.fst = responseFields) ∧
    dget (create_response recReady) "status"
        = some ((dget recReady "status").getD (Val.str "MISSING")) ∧
    dget (create_response recReady) "location" = none := by
  obtain ⟨h1, h2, h3⟩ := create_response_exact_fields recReady
  exact ⟨h1, h2 "status" (by decide), h3 "location" (by decide)⟩

/-- Claim C8: across any sequence of orchestrator operations (on
well-formed requests) the store keeps at most one record per identity key
`(system, itype, tag)`, and `new_image_record` on a key that already has a
record returns the existing record in an unchanged state instead of
inserting a second one. -/
theorem at_most_one_record_per_key (ops : List Op) (m : Mgr)
    (hwf : ∀ op ∈ ops, op.wf) (h0 : uniqueKeys m.store) :
    uniqueKeys (run ops m).store ∧
    (∀ report image m2 rec m3, lookup report image m2 = (some rec, m3) →
      new_image_record report image m2 = (rec, m3)) := by
  constructor
  · exact uniqueKeys_run ops m hwf h0
  · intro report image m2 rec m3 hl
    unfold new_image_record
    rw [hl]

/-- Claim C8 witness: two pulls of the same key on the empty store leave a
store with pairwise-distinct identity keys, and creating the example key
on a store that already holds its record returns that record. -/
theorem at_most_one_record_per_key_witness :
    uniqueKeys (run [Op.pullOp true repPending reqEdison,
      Op.pullOp true repPending reqEdison] mgr0).store ∧
    new_image_record repPending reqEdison mgrReady
      = (recReady, update_states repPending mgrReady) := by
  have h := at_most_one_record_per_key
    [Op.pullOp true repPending reqEdison, Op.pullOp true repPending reqEdison]
    mgr0
    (by
      intro op hop
      rcases List.mem_cons.mp hop with he | hop2
      · rw [he]; unfold Op.wf dictWF; decide
      · rcases List.mem_cons.mp hop2 with he2 | h3
        · rw [he2]; unfold Op.wf dictWF; decide
        · simp at h3)
    (by unfold uniqueKeys; decide)
  exact ⟨h.1, h.2 repPending reqEdison mgrReady recReady
    (update_states repPending mgrReady) (by decide)⟩

/-- Claim C10: `update_mongo_state` translates the dispatcher-reported
`SUCCESS` into the persisted `READY` and writes every other reported state
unchanged; since every status update the public operations perform goes
through it (record creation writes the default `UNKNOWN` and `pull`
immediately re-writes `ENQUEUED` over the inserted record), no reachable
store ever holds a record whose status is `SUCCESS`. -/
theorem no_success_ever_stored (ops : List Op) (m : Mgr)
    (h0 : noSuccess m.store) (hf0 : idsFresh m) :
    statusWrite "SUCCESS" = "READY" ∧
    (∀ s, s ≠ "SUCCESS" → statusWrite s = s) ∧
    noSuccess (run ops m).store := by
  refine ⟨rfl, ?_, (inv_run ops m h0 hf0).1⟩
  intro s hs
  unfold statusWrite
  rw [if_neg hs]

/-- Claim C10 witness: after a pull and a refresh in which the dispatcher
reports `SUCCESS`, the store holds no `SUCCESS` status (the record is
`READY`). -/
theorem no_success_ever_stored_witness :
    statusWrite "SUCCESS" = "READY" ∧
    statusWrite "PENDING" = "PENDING" ∧
    noSuccess (run [Op.pullOp true repSuccess reqEdison,
      Op.updateStatesOp repSuccess] mgr0).store := by
  have h := no_success_ever_stored
    [Op.pullOp true repSuccess reqEdison, Op.updateStatesOp repSuccess] mgr0
    (by intro r hr; simp [mgr0] at hr)
    (by intro r hr; simp [mgr0] at hr)
  exact ⟨h.1, h.2.1 "PENDING" (by decide), h.2.2⟩

end Shifter
